import Mathlib

/-!
Shallow embedding of the heatmap interpolation compute kernel embedded as a
WGSL string in `src/ts/Series/Heatmap/HeatmapSeriesDefaults.ts`
(`interpolation.shaderCode`).

The kernel partitions the image into tiles of `chunk_height × chunk_width`
threads (`@workgroup_size(chunk_height, chunk_width)`); a thread at workgroup
`(wx, wy)` and local invocation index `l` has global position
`(wx * chunk_height + l % chunk_height, wy * chunk_width + l / chunk_height)`.
Tiles are independent up to the two shared resources (the global atomic
counter `belowMinMatrix.length` and the `debugData` buffer), so the embedding
runs tiles sequentially and, within a tile, runs the threads of phase 1 in
local-index order, applies the barrier, and then runs each thread's
post-barrier code in local-index order.  Buffers are total functions
`Nat → Nat`; 32-bit machine integers are `Nat` with `% 2 ^ 32` where overflow
is possible; the `f32` luminance arithmetic is embedded over `ℚ` (all the
shader computes are exact sums of small dyadic/decimal products, and only
comparisons of luminances are ever used).
-/

namespace Heatmap

/-- Bit shift create RGBA color (`fn RGBA` in the shader); `u32` arithmetic,
so the packed value is reduced `% 2 ^ 32`. -/
def RGBA (r g b a : Nat) : Nat :=
  ((r <<< 24) ||| (g <<< 16) ||| (b <<< 8) ||| a) % 2 ^ 32

/-- Bit shift to create color vector from u32 (`fn colorVector`): note the
source names the byte at shift 16 `b` and the byte at shift 8 `g`, and
returns the components in source order `(r, g, b)` of those local names. -/
def colorVector (color : Nat) : ℚ × ℚ × ℚ :=
  let r := (color >>> 24) &&& 0xff
  let b := (color >>> 16) &&& 0xff
  let g := (color >>> 8) &&& 0xff
  ((r : ℚ) / 255, (g : ℚ) / 255, (b : ℚ) / 255)

/-- Componentwise dot product of two 3-vectors (WGSL `dot`). -/
def dot3 (u v : ℚ × ℚ × ℚ) : ℚ := u.1 * v.1 + u.2.1 * v.2.1 + u.2.2 * v.2.2

/-- WGSL `saturate`: clamp to `[0, 1]`. -/
def saturate (x : ℚ) : ℚ := if x < 0 then 0 else if 1 < x then 1 else x

/-- `const kSRGBLuminanceFactors = vec3f(0.2126, 0.7152, 0.0722)`. -/
def kSRGBLuminanceFactors : ℚ × ℚ × ℚ := (2126 / 10000, 7152 / 10000, 722 / 10000)

/-- `fn srgbLuminance(color: u32) -> f32`. -/
def srgbLuminance (color : Nat) : ℚ :=
  saturate (dot3 (colorVector color) kSRGBLuminanceFactors)

/-- Numerator of `dot(colorVector(color), kSRGBLuminanceFactors)` over the
common denominator `2550000 = 255 * 10000`: every value the shader's
luminance computation produces is an exact rational `k / 2550000`, and we
carry the numerator `k` so that comparisons are computable; the channel
wiring is exactly `colorVector`'s (the byte at shift 8 carries weight
0.7152, the byte at shift 16 weight 0.0722).  The agreement with
`srgbLuminance` is proved in `srgbLuminance_eq` and
`srgbLuminance_lt_iff`. -/
def lumNum (color : Nat) : Nat :=
  2126 * ((color >>> 24) &&& 0xff) + 7152 * ((color >>> 8) &&& 0xff)
    + 722 * ((color >>> 16) &&& 0xff)

/-- Numerator form of `saturate` over denominator `2550000` (the lower clamp
at 0 is vacuous on `Nat`). -/
def saturateNum (k : Nat) : Nat := if 2550000 < k then 2550000 else k

/-- Numerator form of `srgbLuminance`: `srgbLuminance c` equals
`srgbLuminanceNum c / 2550000` exactly. -/
def srgbLuminanceNum (color : Nat) : Nat := saturateNum (lumNum color)

/-- Dispatch-time configuration: the shader's override constants
`chunk_width`, `chunk_height`, the uniform `Params` (`width`, `height`,
`debug`), and the dispatch grid `nwx × nwy` of workgroups chosen by the
renderer. -/
structure Config where
  chunk_width : Nat
  chunk_height : Nat
  width : Nat
  height : Nat
  debug : Nat
  nwx : Nat
  nwy : Nat

/-- `const chunk_size = chunk_width * chunk_height`. -/
def Config.chunk_size (c : Config) : Nat := c.chunk_width * c.chunk_height

/-- Global position of the thread with local invocation index `l` of
workgroup `(wx, wy)`: the workgroup size is `(chunk_height, chunk_width)`,
and `local_invocation_index = local_id.x + local_id.y * chunk_height`. -/
def posOf (c : Config) (wx wy l : Nat) : Nat × Nat :=
  (wx * c.chunk_height + l % c.chunk_height, wy * c.chunk_width + l / c.chunk_height)

/-- `let index = global_id.y * size.x + global_id.x`. -/
def idxOf (c : Config) (pos : Nat × Nat) : Nat := pos.2 * c.width + pos.1

/-- Single-cell write to a buffer (`buf[i] = v`). -/
def store (f : Nat → Nat) (i v : Nat) : Nat → Nat := fun j => if j = i then v else f j

/-- Workgroup-local state: `var<workgroup> vectors` (entries `vec3u`),
`local_min`, `local_max`, plus the `resultArrayList` contents as seen during
this tile's execution.  `vectors` is a list whose length is the value of the
workgroup atomic `vectors_length`; the atomic append is modelled as a list
append. -/
structure TileState where
  vectors : List (Nat × Nat × Nat)
  local_min : Nat
  local_max : Nat
  result : Nat → Nat

/-- Phase 1 of one thread of `fn main` (everything before
`workgroupBarrier()`): seeding of `local_min` / `local_max`, the bounds
check, the missing-pixel append, the racy min/max luminance update, and the
verbatim copy into the result buffer. -/
def phase1Thread (c : Config) (pixelData : Nat → Nat) (wx wy l : Nat)
    (st : TileState) : TileState :=
  let lmin0 := if st.local_min = 0 then RGBA 255 255 255 255 else st.local_min
  let lmax0 := if st.local_max = 0 then RGBA 1 0 0 0 else st.local_max
  let position := posOf c wx wy l
  let index := idxOf c position
  if position.1 < c.width ∧ position.2 < c.height then
    let pixel := pixelData index
    if pixel = 0 then
      { vectors := st.vectors ++ [(position.1, position.2, 0)],
        local_min := lmin0, local_max := lmax0,
        result := store st.result index pixel }
    else
      let lmin1 := if srgbLuminanceNum pixel < srgbLuminanceNum lmin0 then pixel else lmin0
      let lmax1 := if srgbLuminanceNum pixel > srgbLuminanceNum lmax0 then pixel else lmax0
      { vectors := st.vectors, local_min := lmin1, local_max := lmax1,
        result := store st.result index pixel }
  else
    { st with local_min := lmin0, local_max := lmax0 }

/-- Phase 1 of a whole tile: threads run in local-index order; the workgroup
variables start zero-initialized. -/
def phase1Tile (c : Config) (pixelData : Nat → Nat) (wx wy : Nat)
    (res0 : Nat → Nat) : TileState :=
  (List.range c.chunk_size).foldl (fun st l => phase1Thread c pixelData wx wy l st)
    ⟨[], 0, 0, res0⟩

/-- Fueled body of the phase-2 strided loop
`for (var i = local_index; i < current_vector_length; i += chunk_size)`.
The fuel bounds the number of iterations; `phase2Loop` supplies
`vecs.length` fuel, which is never exhausted when `0 < chunk_size` since each
iteration advances `i` by at least one. -/
def phase2Go (c : Config) (vecs : List (Nat × Nat × Nat)) (lmax : Nat) :
    Nat → Nat → (Nat → Nat) → (Nat → Nat)
  | 0, _, res => res
  | fuel + 1, i, res =>
    if h : i < vecs.length then
      let vector := vecs.get ⟨i, h⟩
      phase2Go c vecs lmax fuel (i + c.chunk_size)
        (store res (vector.2.1 * c.width + vector.1) lmax)
    else res

/-- One thread's phase-2 loop, starting at its local invocation index. -/
def phase2Loop (c : Config) (vecs : List (Nat × Nat × Nat)) (lmax : Nat)
    (l : Nat) (res : Nat → Nat) : Nat → Nat :=
  phase2Go c vecs lmax vecs.length l res

/-- Global (cross-tile) state: the `resultArrayList` storage buffer, the
global atomic counter `belowMinMatrix.length`, and the `debugData` buffer. -/
structure GpuState where
  resultArrayList : Nat → Nat
  belowMinLength : Nat
  debugData : Nat → Nat

/-- Post-barrier code of one thread of `fn main`: the strided fill loop, the
unconditional `atomicAdd(&belowMinMatrix.length, current_vector_length)`
(note: not guarded by the bounds check nor restricted to one representative
thread), and the debug write `debugData[workgroup_id.x]` when
`params.debug == 1u`. -/
def postBarrierThread (c : Config) (wx : Nat) (vecs : List (Nat × Nat × Nat))
    (lmax : Nat) (l : Nat) (g : GpuState) : GpuState :=
  { resultArrayList := phase2Loop c vecs lmax l g.resultArrayList,
    belowMinLength := g.belowMinLength + vecs.length,
    debugData := if c.debug = 1 then store g.debugData wx vecs.length
                 else g.debugData }

/-- Execution of one workgroup (tile): phase 1 for all threads, the barrier,
then each thread's post-barrier code. -/
def runTile (c : Config) (pixelData : Nat → Nat) (wx wy : Nat)
    (g : GpuState) : GpuState :=
  let st := phase1Tile c pixelData wx wy g.resultArrayList
  (List.range c.chunk_size).foldl
    (fun g2 l => postBarrierThread c wx st.vectors st.local_max l g2)
    { g with resultArrayList := st.result }

/-- Execution of the whole dispatch: all `nwx × nwy` workgroups. -/
def runKernel (c : Config) (pixelData : Nat → Nat) (g : GpuState) : GpuState :=
  (List.range c.nwy).foldl
    (fun g1 wy => (List.range c.nwx).foldl
      (fun g2 wx => runTile c pixelData wx wy g2) g1)
    g

/-- The missing-pixel record produced by thread `l` of tile `(wx, wy)`, if
any: the thread appends `vec3u(position, 0u)` exactly when its position is in
bounds and its pixel is the sentinel `0`. -/
def missAt (c : Config) (pixelData : Nat → Nat) (wx wy l : Nat) :
    Option (Nat × Nat × Nat) :=
  let position := posOf c wx wy l
  if position.1 < c.width ∧ position.2 < c.height ∧ pixelData (idxOf c position) = 0
  then some (position.1, position.2, 0) else none

/-- The tile's missing-pixel list in thread order. -/
def missingList (c : Config) (pixelData : Nat → Nat) (wx wy : Nat) :
    List (Nat × Nat × Nat) :=
  (List.range c.chunk_size).filterMap (missAt c pixelData wx wy)

/-- The tile's `local_max` value after phase 1 (it is not modified afterwards;
it does not depend on the incoming result-buffer contents). -/
def tileMax (c : Config) (pixelData : Nat → Nat) (wx wy : Nat) : Nat :=
  (phase1Tile c pixelData wx wy (fun _ => 0)).local_max

/-- Number of sentinel-valued (`0`) pixels in the input buffer. -/
def totalMissing (c : Config) (pixelData : Nat → Nat) : Nat :=
  ((Finset.range (c.width * c.height)).filter (fun i => pixelData i = 0)).card

/-- Buffer index `i` is an in-bounds pixel of tile `(wx, wy)`. -/
def coveredBy (c : Config) (wx wy i : Nat) : Prop :=
  i < c.width * c.height ∧ i % c.width / c.chunk_height = wx ∧
    i / c.width / c.chunk_width = wy

instance (c : Config) (wx wy i : Nat) : Decidable (coveredBy c wx wy i) := by
  unfold coveredBy; infer_instance

/-- The dispatch grid covers the whole image. -/
def covers (c : Config) : Prop :=
  c.width ≤ c.nwx * c.chunk_height ∧ c.height ≤ c.nwy * c.chunk_width

instance (c : Config) : Decidable (covers c) := by
  unfold covers; infer_instance

/-- Value every in-bounds pixel resolves to: missing pixels get their tile's
final `local_max`, others are copied verbatim. -/
def resolved (c : Config) (p : Nat → Nat) (i : Nat) : Nat :=
  if p i = 0 then
    tileMax c p (i % c.width / c.chunk_height) (i / c.width / c.chunk_width)
  else p i

/-- Scenario A configuration: 2×2 image, 2×2 tile, one workgroup, debug off. -/
def cfgA : Config := ⟨2, 2, 2, 2, 0, 1, 1⟩

/-- Scenario A input buffer `[5, 0, 3, 0]` (sentinel = 0). -/
def pixA : Nat → Nat := fun i => if i = 0 then 5 else if i = 2 then 3 else 0

/-- All-zero initial GPU state (freshly zeroed buffers and counter). -/
def gpu0 : GpuState := ⟨fun _ => 0, 0, fun _ => 0⟩

/-- Configuration with a 1×1 image but a 2×2 tile (three of the four threads
are out of bounds), debug on. -/
def cfgOut : Config := ⟨2, 2, 1, 1, 1, 1, 1⟩

/-- All-missing input buffer. -/
def pixZero : Nat → Nat := fun _ => 0

/-- Configuration with a 1×4 image, 1×2 tiles (`chunk_height = 1` is the tile
x-extent, `chunk_width = 2` the y-extent), and a 1×2 workgroup grid, debug
on: two tiles stacked vertically, both with `workgroup_id.x = 0`. -/
def cfgDbg : Config := ⟨2, 1, 1, 4, 1, 1, 2⟩

/-- Input `[0, 0, 0, 5]` for `cfgDbg`: the first tile has two missing pixels,
the second tile one. -/
def pixDbg : Nat → Nat := fun i => if i = 3 then 5 else 0

/-- Variant of `pixDbg` that differs only inside the second tile of `cfgDbg`
(index 2, i.e. position `(0, 2)`). -/
def pixDbg2 : Nat → Nat := fun i => if i = 2 then 4 else pixDbg i

/-! ### Bit-arithmetic helpers -/

lemma or_mod_two (x y : Nat) (hx : x % 2 = 0) : (x ||| y) % 2 = y % 2 := by
  have h := Nat.testBit_lor x y 0
  simp only [Nat.testBit_zero] at h
  rcases Nat.mod_two_eq_zero_or_one y with hy | hy <;>
    rcases Nat.mod_two_eq_zero_or_one (x ||| y) with ho | ho <;>
      simp [hx, hy, ho] at h ⊢

lemma shiftLeft_lor_eq_add (k a : Nat) : ∀ b, b < 2 ^ k → a <<< k ||| b = a * 2 ^ k + b := by
  induction k with
  | zero =>
    intro b hb
    have hb0 : b = 0 := by omega
    subst hb0
    simp [Nat.shiftLeft_eq]
  | succ k ih =>
    intro b hb
    have hpow : (2 : Nat) ^ (k + 1) = 2 * 2 ^ k := by ring
    have hx : (a <<< (k + 1)) % 2 = 0 := by
      rw [Nat.shiftLeft_eq, hpow, show a * (2 * 2 ^ k) = 2 * (a * 2 ^ k) by ring]
      omega
    have hdiv2 : (a <<< (k + 1)) / 2 = a <<< k := by
      rw [Nat.shiftLeft_eq, Nat.shiftLeft_eq, hpow,
        show a * (2 * 2 ^ k) = 2 * (a * 2 ^ k) by ring]
      omega
    have hmod := or_mod_two (a <<< (k + 1)) b hx
    have hdiv : (a <<< (k + 1) ||| b) / 2 = a <<< k ||| b / 2 := by
      rw [Nat.or_div_two, hdiv2]
    have hb2 : b / 2 < 2 ^ k := by omega
    have ihh := ih (b / 2) hb2
    have hsplit := Nat.div_add_mod (a <<< (k + 1) ||| b) 2
    rw [hdiv, hmod, ihh] at hsplit
    have heq : a <<< (k + 1) = 2 * (a * 2 ^ k) := by
      rw [Nat.shiftLeft_eq, hpow]; ring
    rw [heq] at hsplit ⊢
    rw [hpow, show a * (2 * 2 ^ k) = 2 * (a * 2 ^ k) by ring]
    omega

lemma RGBA_eq (r g b a : Nat) (hr : r < 256) (hg : g < 256) (hb : b < 256)
    (ha : a < 256) : RGBA r g b a = r * 2 ^ 24 + g * 2 ^ 16 + b * 2 ^ 8 + a := by
  have h8 : b <<< 8 ||| a = b * 2 ^ 8 + a := shiftLeft_lor_eq_add 8 b a (by omega)
  have h16 : g <<< 16 ||| (b * 2 ^ 8 + a) = g * 2 ^ 16 + (b * 2 ^ 8 + a) :=
    shiftLeft_lor_eq_add 16 g _ (by omega)
  have h24 : r <<< 24 ||| (g * 2 ^ 16 + (b * 2 ^ 8 + a)) =
      r * 2 ^ 24 + (g * 2 ^ 16 + (b * 2 ^ 8 + a)) :=
    shiftLeft_lor_eq_add 24 r _ (by omega)
  unfold RGBA
  rw [Nat.lor_assoc, Nat.lor_assoc, h8, h16, h24]
  have : r * 2 ^ 24 + (g * 2 ^ 16 + (b * 2 ^ 8 + a)) < 2 ^ 32 := by omega
  rw [Nat.mod_eq_of_lt this]
  omega

lemma byte_mask_eq_mod (x : Nat) : x &&& 255 = x % 256 := by
  have h := Nat.and_pow_two_sub_one_eq_mod x 8
  norm_num at h
  exact h

/-! ### Division/modulus helpers for tile geometry -/

lemma tile_div_eq (wx r ch : Nat) (h : r < ch) : (wx * ch + r) / ch = wx := by
  have hch : 0 < ch := by omega
  rw [Nat.add_comm, Nat.add_mul_div_right _ _ hch, Nat.div_eq_of_lt h]
  omega

lemma tile_mod_eq (wx r ch : Nat) (h : r < ch) : (wx * ch + r) % ch = r := by
  rw [Nat.add_comm, Nat.add_mul_mod_self_right, Nat.mod_eq_of_lt h]

lemma colorVector_RGBA (r g b a : Nat) (hr : r < 256) (hg : g < 256) (hb : b < 256)
    (ha : a < 256) :
    colorVector (RGBA r g b a) = ((r : ℚ) / 255, (b : ℚ) / 255, (g : ℚ) / 255) := by
  rw [RGBA_eq r g b a hr hg hb ha]
  have e24 : (r * 2 ^ 24 + g * 2 ^ 16 + b * 2 ^ 8 + a) >>> 24 &&& 255 = r := by
    rw [Nat.shiftRight_eq_div_pow, byte_mask_eq_mod]; omega
  have e16 : (r * 2 ^ 24 + g * 2 ^ 16 + b * 2 ^ 8 + a) >>> 16 &&& 255 = g := by
    rw [Nat.shiftRight_eq_div_pow, byte_mask_eq_mod]; omega
  have e8 : (r * 2 ^ 24 + g * 2 ^ 16 + b * 2 ^ 8 + a) >>> 8 &&& 255 = b := by
    rw [Nat.shiftRight_eq_div_pow, byte_mask_eq_mod]; omega
  simp only [colorVector, e24, e16, e8]

/-! ### Agreement of the exact-numerator luminance with the shader formula -/

lemma dot3_colorVector_eq (c : Nat) :
    dot3 (colorVector c) kSRGBLuminanceFactors = (lumNum c : ℚ) / 2550000 := by
  simp only [dot3, colorVector, kSRGBLuminanceFactors, lumNum]
  push_cast
  ring

lemma saturate_div (k : Nat) :
    saturate ((k : ℚ) / 2550000) = (saturateNum k : ℚ) / 2550000 := by
  unfold saturate saturateNum
  have hpos : (0:ℚ) < 2550000 := by norm_num
  have h0 : ¬((k : ℚ) / 2550000 < 0) := not_lt.2 (by positivity)
  rw [if_neg h0]
  by_cases h1 : 2550000 < k
  · have h1q : 1 < (k : ℚ) / 2550000 := by
      rw [lt_div_iff₀ hpos, one_mul]
      exact_mod_cast h1
    rw [if_pos h1q, if_pos h1]
    norm_num
  · have h1q : ¬(1 < (k : ℚ) / 2550000) := by
      rw [not_lt, div_le_one hpos]
      exact_mod_cast not_lt.1 h1
    rw [if_neg h1q, if_neg h1]

lemma srgbLuminance_eq (c : Nat) :
    srgbLuminance c = (srgbLuminanceNum c : ℚ) / 2550000 := by
  unfold srgbLuminance srgbLuminanceNum
  rw [dot3_colorVector_eq, saturate_div]

lemma srgbLuminance_lt_iff (a b : Nat) :
    srgbLuminance a < srgbLuminance b ↔ srgbLuminanceNum a < srgbLuminanceNum b := by
  rw [srgbLuminance_eq, srgbLuminance_eq,
    div_lt_div_iff_of_pos_right (by norm_num : (0:ℚ) < 2550000)]
  exact Nat.cast_lt

/-! ### Phase-1 single-thread characterization -/

lemma phase1Thread_vectors (c : Config) (p : Nat → Nat) (wx wy l : Nat) (st : TileState) :
    (phase1Thread c p wx wy l st).vectors = st.vectors ++ (missAt c p wx wy l).toList := by
  by_cases hb : (posOf c wx wy l).1 < c.width ∧ (posOf c wx wy l).2 < c.height
  · by_cases hp : p (idxOf c (posOf c wx wy l)) = 0
    · simp [phase1Thread, missAt, hb, hp]
    · simp [phase1Thread, missAt, hb, hp]
  · have hcond : ¬((posOf c wx wy l).1 < c.width ∧ (posOf c wx wy l).2 < c.height ∧
        p (idxOf c (posOf c wx wy l)) = 0) := fun h => hb ⟨h.1, h.2.1⟩
    simp [phase1Thread, missAt, hb, hcond]

lemma phase1Thread_result (c : Config) (p : Nat → Nat) (wx wy l : Nat) (st : TileState)
    (i : Nat) :
    (phase1Thread c p wx wy l st).result i =
      if (posOf c wx wy l).1 < c.width ∧ (posOf c wx wy l).2 < c.height ∧
          idxOf c (posOf c wx wy l) = i then p i else st.result i := by
  by_cases hb : (posOf c wx wy l).1 < c.width ∧ (posOf c wx wy l).2 < c.height
  · by_cases hi : idxOf c (posOf c wx wy l) = i
    · subst hi
      by_cases hp : p (idxOf c (posOf c wx wy l)) = 0 <;>
        simp [phase1Thread, store, hb, hp]
    · have hi' : ¬(i = idxOf c (posOf c wx wy l)) := fun h => hi h.symm
      by_cases hp : p (idxOf c (posOf c wx wy l)) = 0 <;>
        simp [phase1Thread, store, hb, hp, hi, hi']
  · have hcond : ¬((posOf c wx wy l).1 < c.width ∧ (posOf c wx wy l).2 < c.height ∧
        idxOf c (posOf c wx wy l) = i) := fun h => hb ⟨h.1, h.2.1⟩
    simp [phase1Thread, hb, hcond]

lemma phase1Thread_local_max_congr (c : Config) (p q : Nat → Nat) (wx wy l : Nat)
    (st st' : TileState)
    (hpq : (posOf c wx wy l).1 < c.width ∧ (posOf c wx wy l).2 < c.height →
      p (idxOf c (posOf c wx wy l)) = q (idxOf c (posOf c wx wy l)))
    (h : st.local_max = st'.local_max) :
    (phase1Thread c p wx wy l st).local_max = (phase1Thread c q wx wy l st').local_max := by
  by_cases hb : (posOf c wx wy l).1 < c.width ∧ (posOf c wx wy l).2 < c.height
  · have hpe := hpq hb
    by_cases hp : p (idxOf c (posOf c wx wy l)) = 0 <;>
      simp [phase1Thread, hb, hp, ← hpe, h]
  · simp [phase1Thread, hb, h]

lemma phase1Thread_local_max_ne (c : Config) (p : Nat → Nat) (wx wy l : Nat)
    (st : TileState) : (phase1Thread c p wx wy l st).local_max ≠ 0 := by
  have hseed : RGBA 1 0 0 0 ≠ 0 := by decide
  by_cases hb : (posOf c wx wy l).1 < c.width ∧ (posOf c wx wy l).2 < c.height
  · by_cases hp : p (idxOf c (posOf c wx wy l)) = 0 <;>
      by_cases hm : st.local_max = 0 <;>
        simp [phase1Thread, hb, hp, hm, hseed] <;>
          split <;> simp_all
  · by_cases hm : st.local_max = 0 <;> simp [phase1Thread, hb, hm, hseed]

/-! ### Phase-1 whole-tile characterization -/

lemma phase1_fold_vectors (c : Config) (p : Nat → Nat) (wx wy : Nat) :
    ∀ (n : Nat) (st : TileState),
      ((List.range n).foldl (fun st l => phase1Thread c p wx wy l st) st).vectors
        = st.vectors ++ (List.range n).filterMap (missAt c p wx wy) := by
  intro n
  induction n with
  | zero => intro st; simp
  | succ n ih =>
    intro st
    rw [List.range_succ, List.foldl_append, List.filterMap_append]
    simp only [List.foldl_cons, List.foldl_nil]
    rw [phase1Thread_vectors, ih, List.append_assoc]
    cases hmiss : missAt c p wx wy n <;> simp [hmiss]

lemma exists_range_append_iff (n : Nat) (P : Nat → Prop) :
    (∃ l ∈ List.range n ++ [n], P l) ↔ (P n ∨ ∃ l ∈ List.range n, P l) := by
  constructor
  · rintro ⟨l, hl, hP⟩
    rcases List.mem_append.1 hl with h | h
    · exact Or.inr ⟨l, h, hP⟩
    · simp only [List.mem_singleton] at h
      subst h; exact Or.inl hP
  · rintro (h | ⟨l, hl, hP⟩)
    · exact ⟨n, List.mem_append.2 (Or.inr (by simp)), h⟩
    · exact ⟨l, List.mem_append.2 (Or.inl hl), hP⟩

lemma phase1_fold_result (c : Config) (p : Nat → Nat) (wx wy : Nat) :
    ∀ (n : Nat) (st : TileState) (i : Nat),
      ((List.range n).foldl (fun st l => phase1Thread c p wx wy l st) st).result i
        = if ∃ l ∈ List.range n, ((posOf c wx wy l).1 < c.width ∧
            (posOf c wx wy l).2 < c.height ∧ idxOf c (posOf c wx wy l) = i)
          then p i else st.result i := by
  intro n
  induction n with
  | zero => intro st i; simp
  | succ n ih =>
    intro st i
    rw [List.range_succ, List.foldl_append]
    simp only [List.foldl_cons, List.foldl_nil]
    rw [phase1Thread_result, ih]
    rw [if_congr (exists_range_append_iff n _) rfl rfl]
    by_cases h1 : (posOf c wx wy n).1 < c.width ∧ (posOf c wx wy n).2 < c.height ∧
        idxOf c (posOf c wx wy n) = i
    · simp [h1]
    · by_cases h2 : ∃ l ∈ List.range n, ((posOf c wx wy l).1 < c.width ∧
          (posOf c wx wy l).2 < c.height ∧ idxOf c (posOf c wx wy l) = i) <;>
        simp [h1, h2]

lemma phase1_fold_max_congr (c : Config) (p q : Nat → Nat) (wx wy : Nat) :
    ∀ (n : Nat),
      (∀ l, l < n → ((posOf c wx wy l).1 < c.width ∧ (posOf c wx wy l).2 < c.height) →
        p (idxOf c (posOf c wx wy l)) = q (idxOf c (posOf c wx wy l))) →
      ∀ (st st' : TileState), st.local_max = st'.local_max →
        ((List.range n).foldl (fun st l => phase1Thread c p wx wy l st) st).local_max
          = ((List.range n).foldl (fun st l => phase1Thread c q wx wy l st) st').local_max := by
  intro n
  induction n with
  | zero => intro _ st st' h; simpa using h
  | succ n ih =>
    intro hagree st st' h
    rw [List.range_succ, List.foldl_append, List.foldl_append]
    simp only [List.foldl_cons, List.foldl_nil]
    exact phase1Thread_local_max_congr c p q wx wy n _ _
      (hagree n (Nat.lt_succ_self n))
      (ih (fun l hl => hagree l (Nat.lt_succ_of_lt hl)) st st' h)

lemma phase1_fold_max_ne (c : Config) (p : Nat → Nat) (wx wy : Nat) :
    ∀ (n : Nat) (st : TileState), 0 < n →
      ((List.range n).foldl (fun st l => phase1Thread c p wx wy l st) st).local_max ≠ 0 := by
  intro n st hn
  cases n with
  | zero => omega
  | succ n =>
    rw [List.range_succ, List.foldl_append]
    simp only [List.foldl_cons, List.foldl_nil]
    exact phase1Thread_local_max_ne c p wx wy n _

lemma phase1Tile_vectors (c : Config) (p : Nat → Nat) (wx wy : Nat) (res0 : Nat → Nat) :
    (phase1Tile c p wx wy res0).vectors = missingList c p wx wy := by
  unfold phase1Tile missingList
  rw [phase1_fold_vectors]
  simp

lemma phase1Tile_result (c : Config) (p : Nat → Nat) (wx wy : Nat) (res0 : Nat → Nat)
    (i : Nat) :
    (phase1Tile c p wx wy res0).result i
      = if ∃ l ∈ List.range c.chunk_size, ((posOf c wx wy l).1 < c.width ∧
          (posOf c wx wy l).2 < c.height ∧ idxOf c (posOf c wx wy l) = i)
        then p i else res0 i :=
  phase1_fold_result c p wx wy c.chunk_size ⟨[], 0, 0, res0⟩ i

lemma phase1Tile_local_max (c : Config) (p : Nat → Nat) (wx wy : Nat) (res0 : Nat → Nat) :
    (phase1Tile c p wx wy res0).local_max = tileMax c p wx wy :=
  phase1_fold_max_congr c p p wx wy c.chunk_size (fun _ _ _ => rfl)
    ⟨[], 0, 0, res0⟩ ⟨[], 0, 0, fun _ => 0⟩ rfl

lemma tileMax_ne (c : Config) (p : Nat → Nat) (wx wy : Nat) (h : 0 < c.chunk_size) :
    tileMax c p wx wy ≠ 0 :=
  phase1_fold_max_ne c p wx wy c.chunk_size ⟨[], 0, 0, fun _ => 0⟩ h

lemma tileMax_congr (c : Config) (p q : Nat → Nat) (wx wy : Nat)
    (hagree : ∀ l, l < c.chunk_size →
      ((posOf c wx wy l).1 < c.width ∧ (posOf c wx wy l).2 < c.height) →
      p (idxOf c (posOf c wx wy l)) = q (idxOf c (posOf c wx wy l))) :
    tileMax c p wx wy = tileMax c q wx wy :=
  phase1_fold_max_congr c p q wx wy c.chunk_size hagree _ _ rfl

/-! ### Phase-2 loop characterization -/

lemma phase2Go_stop (c : Config) (vecs : List (Nat × Nat × Nat)) (lmax : Nat)
    (fuel i : Nat) (res : Nat → Nat) (h : vecs.length ≤ i) :
    phase2Go c vecs lmax fuel i res = res := by
  cases fuel with
  | zero => rfl
  | succ fuel =>
    simp only [phase2Go]
    rw [dif_neg (by omega)]

lemma phase2Loop_ge (c : Config) (vecs : List (Nat × Nat × Nat)) (lmax l : Nat)
    (res : Nat → Nat) (h : vecs.length ≤ l) :
    phase2Loop c vecs lmax l res = res :=
  phase2Go_stop c vecs lmax vecs.length l res h

lemma phase2Loop_lt (c : Config) (vecs : List (Nat × Nat × Nat)) (lmax l : Nat)
    (res : Nat → Nat) (hl : l < vecs.length) (hcs : vecs.length ≤ l + c.chunk_size) :
    phase2Loop c vecs lmax l res =
      store res ((vecs.get ⟨l, hl⟩).2.1 * c.width + (vecs.get ⟨l, hl⟩).1) lmax := by
  have key : ∀ fuel, 0 < fuel → phase2Go c vecs lmax fuel l res =
      store res ((vecs.get ⟨l, hl⟩).2.1 * c.width + (vecs.get ⟨l, hl⟩).1) lmax := by
    intro fuel hpos
    cases fuel with
    | zero => omega
    | succ m =>
      simp only [phase2Go]
      rw [dif_pos hl]
      exact phase2Go_stop c vecs lmax m _ _ (by omega)
  exact key vecs.length (by omega)

/-! ### Post-barrier per-tile fold characterization -/

lemma store_store (f : Nat → Nat) (i v : Nat) : store (store f i v) i v = store f i v :=
  funext fun j => by by_cases h : j = i <;> simp [store, h]

lemma postBarrierThread_counter (c : Config) (wx : Nat) (vecs : List (Nat × Nat × Nat))
    (lmax l : Nat) (g : GpuState) :
    (postBarrierThread c wx vecs lmax l g).belowMinLength
      = g.belowMinLength + vecs.length := rfl

lemma postBarrierThread_debug (c : Config) (wx : Nat) (vecs : List (Nat × Nat × Nat))
    (lmax l : Nat) (g : GpuState) :
    (postBarrierThread c wx vecs lmax l g).debugData
      = if c.debug = 1 then store g.debugData wx vecs.length else g.debugData := rfl

lemma postBarrierThread_result (c : Config) (wx : Nat) (vecs : List (Nat × Nat × Nat))
    (lmax l : Nat) (g : GpuState) :
    (postBarrierThread c wx vecs lmax l g).resultArrayList
      = phase2Loop c vecs lmax l g.resultArrayList := rfl

lemma pb_fold_counter (c : Config) (wx : Nat) (vecs : List (Nat × Nat × Nat)) (lmax : Nat) :
    ∀ (n : Nat) (g : GpuState),
      ((List.range n).foldl (fun g2 l => postBarrierThread c wx vecs lmax l g2) g).belowMinLength
        = g.belowMinLength + n * vecs.length := by
  intro n
  induction n with
  | zero => intro g; simp
  | succ n ih =>
    intro g
    rw [List.range_succ, List.foldl_append]
    simp only [List.foldl_cons, List.foldl_nil]
    rw [postBarrierThread_counter, ih g]
    ring

lemma pb_fold_debug (c : Config) (wx : Nat) (vecs : List (Nat × Nat × Nat)) (lmax : Nat) :
    ∀ (n : Nat) (g : GpuState),
      ((List.range n).foldl (fun g2 l => postBarrierThread c wx vecs lmax l g2) g).debugData
        = if c.debug = 1 ∧ 0 < n then store g.debugData wx vecs.length else g.debugData := by
  intro n
  induction n with
  | zero => intro g; simp
  | succ n ih =>
    intro g
    rw [List.range_succ, List.foldl_append]
    simp only [List.foldl_cons, List.foldl_nil]
    rw [postBarrierThread_debug, ih g]
    by_cases hd : c.debug = 1
    · rcases Nat.eq_zero_or_pos n with hn | hn
      · subst hn; simp [hd]
      · simp [hd, hn, store_store]
    · simp [hd]

lemma pb_fold_result (c : Config) (wx : Nat) (vecs : List (Nat × Nat × Nat)) (lmax : Nat)
    (hlen : vecs.length ≤ c.chunk_size) :
    ∀ (n : Nat), n ≤ c.chunk_size → ∀ (g : GpuState) (i : Nat),
      ((List.range n).foldl (fun g2 l => postBarrierThread c wx vecs lmax l g2)
          g).resultArrayList i
        = if ∃ v ∈ vecs.take n, v.2.1 * c.width + v.1 = i then lmax
          else g.resultArrayList i := by
  intro n
  induction n with
  | zero => intro _ g i; simp
  | succ n ih =>
    intro hn g i
    rw [List.range_succ, List.foldl_append]
    simp only [List.foldl_cons, List.foldl_nil]
    rw [postBarrierThread_result]
    by_cases hnv : n < vecs.length
    · rw [phase2Loop_lt c vecs lmax n _ hnv (by omega)]
      have htake : vecs.take (n + 1) = vecs.take n ++ [vecs.get ⟨n, hnv⟩] := by
        rw [List.take_succ, List.getElem?_eq_getElem hnv]
        simp [List.get_eq_getElem]
      rw [htake]
      by_cases hi : i = (vecs.get ⟨n, hnv⟩).2.1 * c.width + (vecs.get ⟨n, hnv⟩).1
      · have hex : ∃ v ∈ vecs.take n ++ [vecs.get ⟨n, hnv⟩], v.2.1 * c.width + v.1 = i :=
          ⟨vecs.get ⟨n, hnv⟩, List.mem_append.2 (Or.inr (List.mem_singleton.2 rfl)), hi.symm⟩
        rw [if_pos hex]
        simp only [store]
        rw [if_pos hi]
      · have hiff : (∃ v ∈ vecs.take n ++ [vecs.get ⟨n, hnv⟩], v.2.1 * c.width + v.1 = i)
            ↔ (∃ v ∈ vecs.take n, v.2.1 * c.width + v.1 = i) := by
          constructor
          · rintro ⟨v, hv, hvi⟩
            rcases List.mem_append.1 hv with h | h
            · exact ⟨v, h, hvi⟩
            · simp only [List.mem_singleton] at h
              subst h
              exact absurd hvi.symm hi
          · rintro ⟨v, hv, hvi⟩
            exact ⟨v, List.mem_append.2 (Or.inl hv), hvi⟩
        rw [if_congr hiff rfl rfl]
        simp only [store]
        rw [if_neg hi]
        exact ih (by omega) g i
    · rw [phase2Loop_ge c vecs lmax n _ (by omega)]
      have htake1 : vecs.take (n + 1) = vecs := List.take_of_length_le (by omega)
      have htake2 : vecs.take n = vecs := List.take_of_length_le (by omega)
      rw [ih (by omega) g i]
      exact (if_congr (by rw [htake1, htake2]) rfl rfl).symm

/-! ### Tile geometry -/

lemma idx_lt_size (w h x y : Nat) (hx : x < w) (hy : y < h) : y * w + x < w * h := by
  have h1 : (y + 1) * w = y * w + w := by ring
  have h2 : (y + 1) * w ≤ h * w := Nat.mul_le_mul_right _ (by omega)
  have h3 : h * w = w * h := Nat.mul_comm h w
  omega

lemma covered_iff (c : Config) (hch : 0 < c.chunk_height) (hcw : 0 < c.chunk_width)
    (wx wy i : Nat) :
    coveredBy c wx wy i ↔ ∃ l ∈ List.range c.chunk_size,
      ((posOf c wx wy l).1 < c.width ∧ (posOf c wx wy l).2 < c.height ∧
        idxOf c (posOf c wx wy l) = i) := by
  constructor
  · rintro ⟨hiwh, hx, hy⟩
    have hw : 0 < c.width := by
      rcases Nat.eq_zero_or_pos c.width with h | h
      · rw [h, Nat.zero_mul] at hiwh; omega
      · exact h
    have hxw : i % c.width < c.width := Nat.mod_lt _ hw
    have hyh : i / c.width < c.height := by
      refine (Nat.div_lt_iff_lt_mul hw).2 ?_
      rw [Nat.mul_comm]
      exact hiwh
    have hr : i % c.width % c.chunk_height < c.chunk_height := Nat.mod_lt _ hch
    have hq : i / c.width % c.chunk_width < c.chunk_width := Nat.mod_lt _ hcw
    have hpos1 : (posOf c wx wy ((i / c.width % c.chunk_width) * c.chunk_height
        + i % c.width % c.chunk_height)).1 = i % c.width := by
      simp only [posOf]
      rw [tile_mod_eq _ _ _ hr, ← hx,
        Nat.mul_comm (i % c.width / c.chunk_height) c.chunk_height]
      exact Nat.div_add_mod _ _
    have hpos2 : (posOf c wx wy ((i / c.width % c.chunk_width) * c.chunk_height
        + i % c.width % c.chunk_height)).2 = i / c.width := by
      simp only [posOf]
      rw [tile_div_eq _ _ _ hr, ← hy,
        Nat.mul_comm (i / c.width / c.chunk_width) c.chunk_width]
      exact Nat.div_add_mod _ _
    refine ⟨(i / c.width % c.chunk_width) * c.chunk_height + i % c.width % c.chunk_height,
      List.mem_range.2 ?_, ?_, ?_, ?_⟩
    · have hstep : (i / c.width % c.chunk_width) * c.chunk_height
          + i % c.width % c.chunk_height
          < (i / c.width % c.chunk_width + 1) * c.chunk_height := by
        have he : (i / c.width % c.chunk_width + 1) * c.chunk_height
            = (i / c.width % c.chunk_width) * c.chunk_height + c.chunk_height := by ring
        omega
      have hle : (i / c.width % c.chunk_width + 1) * c.chunk_height
          ≤ c.chunk_width * c.chunk_height := Nat.mul_le_mul_right _ (by omega)
      have := lt_of_lt_of_le hstep hle
      simpa [Config.chunk_size] using this
    · rw [hpos1]; exact hxw
    · rw [hpos2]; exact hyh
    · simp only [idxOf]
      rw [hpos1, hpos2, Nat.mul_comm (i / c.width) c.width]
      exact Nat.div_add_mod i c.width
  · rintro ⟨l, hl, hbx, hby, hidx⟩
    have hlcs : l < c.chunk_width * c.chunk_height := by
      simpa [Config.chunk_size] using List.mem_range.1 hl
    subst hidx
    simp only [idxOf, posOf] at hbx hby ⊢
    refine ⟨idx_lt_size _ _ _ _ hbx hby, ?_, ?_⟩
    · rw [tile_mod_eq _ _ _ hbx]
      exact tile_div_eq _ _ _ (Nat.mod_lt _ hch)
    · rw [tile_div_eq _ _ _ hbx]
      exact tile_div_eq _ _ _ ((Nat.div_lt_iff_lt_mul hch).2 hlcs)

/-! ### Whole-tile characterization -/

lemma missingList_length_le (c : Config) (p : Nat → Nat) (wx wy : Nat) :
    (missingList c p wx wy).length ≤ c.chunk_size :=
  le_trans (List.length_filterMap_le _ _) (le_of_eq (List.length_range _))

lemma missingList_idx (c : Config) (p : Nat → Nat) (wx wy : Nat) (v : Nat × Nat × Nat)
    (hv : v ∈ missingList c p wx wy) :
    ∃ l ∈ List.range c.chunk_size, ((posOf c wx wy l).1 < c.width ∧
      (posOf c wx wy l).2 < c.height ∧
      idxOf c (posOf c wx wy l) = v.2.1 * c.width + v.1) ∧
      p (v.2.1 * c.width + v.1) = 0 := by
  rcases List.mem_filterMap.1 hv with ⟨l, hl, hsome⟩
  simp only [missAt] at hsome
  split_ifs at hsome with hcond
  rcases hcond with ⟨h1, h2, h3⟩
  cases hsome
  exact ⟨l, hl, ⟨h1, h2, rfl⟩, h3⟩

lemma runTile_result (c : Config) (p : Nat → Nat) (wx wy : Nat) (g : GpuState)
    (hch : 0 < c.chunk_height) (hcw : 0 < c.chunk_width) (i : Nat) :
    (runTile c p wx wy g).resultArrayList i =
      if coveredBy c wx wy i then (if p i = 0 then tileMax c p wx wy else p i)
      else g.resultArrayList i := by
  have hlen : (phase1Tile c p wx wy g.resultArrayList).vectors.length ≤ c.chunk_size := by
    rw [phase1Tile_vectors]
    exact missingList_length_le c p wx wy
  unfold runTile
  rw [pb_fold_result c wx _ _ hlen c.chunk_size (le_refl _) _ i,
    List.take_of_length_le hlen, phase1Tile_vectors, phase1Tile_local_max]
  dsimp only
  by_cases hcov : coveredBy c wx wy i
  · rw [if_pos hcov]
    rcases (covered_iff c hch hcw wx wy i).1 hcov with ⟨l, hl, hb1, hb2, hidx⟩
    by_cases hp : p i = 0
    · rw [if_pos hp]
      have hmem : ∃ v ∈ missingList c p wx wy, v.2.1 * c.width + v.1 = i := by
        refine ⟨((posOf c wx wy l).1, (posOf c wx wy l).2, 0), ?_, ?_⟩
        · refine List.mem_filterMap.2 ⟨l, hl, ?_⟩
          have hpz : p (idxOf c (posOf c wx wy l)) = 0 := by rw [hidx]; exact hp
          simp [missAt, hb1, hb2, hpz]
        · simpa [idxOf] using hidx
      rw [if_pos hmem]
    · rw [if_neg hp]
      have hnomem : ¬∃ v ∈ missingList c p wx wy, v.2.1 * c.width + v.1 = i := by
        rintro ⟨v, hv, hvi⟩
        rcases missingList_idx c p wx wy v hv with ⟨_, _, _, hpz⟩
        rw [hvi] at hpz
        exact hp hpz
      rw [if_neg hnomem, phase1Tile_result,
        if_pos ⟨l, hl, hb1, hb2, hidx⟩]
  · rw [if_neg hcov]
    have hnomem : ¬∃ v ∈ missingList c p wx wy, v.2.1 * c.width + v.1 = i := by
      rintro ⟨v, hv, hvi⟩
      rcases missingList_idx c p wx wy v hv with ⟨l, hl, ⟨h1, h2, h3⟩, _⟩
      rw [hvi] at h3
      exact hcov ((covered_iff c hch hcw wx wy i).2 ⟨l, hl, h1, h2, h3⟩)
    rw [if_neg hnomem, phase1Tile_result, if_neg]
    rintro ⟨l, hl, h1, h2, h3⟩
    exact hcov ((covered_iff c hch hcw wx wy i).2 ⟨l, hl, h1, h2, h3⟩)

lemma runTile_counter (c : Config) (p : Nat → Nat) (wx wy : Nat) (g : GpuState) :
    (runTile c p wx wy g).belowMinLength
      = g.belowMinLength + c.chunk_size * (missingList c p wx wy).length := by
  unfold runTile
  rw [pb_fold_counter, phase1Tile_vectors]

lemma runTile_debug (c : Config) (p : Nat → Nat) (wx wy : Nat) (g : GpuState) :
    (runTile c p wx wy g).debugData
      = if c.debug = 1 ∧ 0 < c.chunk_size then
          store g.debugData wx (missingList c p wx wy).length
        else g.debugData := by
  unfold runTile
  rw [pb_fold_debug, phase1Tile_vectors]

/-! ### Whole-dispatch characterization -/

lemma row_fold_result (c : Config) (p : Nat → Nat) (wy : Nat)
    (hch : 0 < c.chunk_height) (hcw : 0 < c.chunk_width) :
    ∀ (nx : Nat) (g : GpuState) (i : Nat),
      ((List.range nx).foldl (fun g2 wx => runTile c p wx wy g2) g).resultArrayList i
        = if i < c.width * c.height ∧ i % c.width / c.chunk_height < nx ∧
            i / c.width / c.chunk_width = wy
          then resolved c p i else g.resultArrayList i := by
  intro nx
  induction nx with
  | zero => intro g i; simp
  | succ nx ih =>
    intro g i
    rw [List.range_succ, List.foldl_append]
    simp only [List.foldl_cons, List.foldl_nil]
    rw [runTile_result c p nx wy _ hch hcw i, ih g i]
    by_cases hcov : coveredBy c nx wy i
    · rw [if_pos hcov]
      obtain ⟨h1, h2, h3⟩ := hcov
      have hc : i < c.width * c.height ∧ i % c.width / c.chunk_height < nx + 1 ∧
          i / c.width / c.chunk_width = wy := ⟨h1, by omega, h3⟩
      rw [if_pos hc]
      unfold resolved
      rw [h2, h3]
    · rw [if_neg hcov]
      have hiff : (i < c.width * c.height ∧ i % c.width / c.chunk_height < nx + 1 ∧
          i / c.width / c.chunk_width = wy) ↔ (i < c.width * c.height ∧
          i % c.width / c.chunk_height < nx ∧ i / c.width / c.chunk_width = wy) := by
        constructor
        · rintro ⟨h1, h2, h3⟩
          refine ⟨h1, ?_, h3⟩
          rcases Nat.lt_succ_iff_lt_or_eq.1 h2 with h | h
          · exact h
          · exact absurd ⟨h1, h, h3⟩ hcov
        · rintro ⟨h1, h2, h3⟩
          exact ⟨h1, by omega, h3⟩
      exact (if_congr hiff rfl rfl).symm

lemma kernel_fold_result (c : Config) (p : Nat → Nat)
    (hch : 0 < c.chunk_height) (hcw : 0 < c.chunk_width) :
    ∀ (ny : Nat) (g : GpuState) (i : Nat),
      ((List.range ny).foldl (fun g1 wy => (List.range c.nwx).foldl
          (fun g2 wx => runTile c p wx wy g2) g1) g).resultArrayList i
        = if i < c.width * c.height ∧ i % c.width / c.chunk_height < c.nwx ∧
            i / c.width / c.chunk_width < ny
          then resolved c p i else g.resultArrayList i := by
  intro ny
  induction ny with
  | zero => intro g i; simp
  | succ ny ih =>
    intro g i
    rw [List.range_succ, List.foldl_append]
    simp only [List.foldl_cons, List.foldl_nil]
    rw [row_fold_result c p ny hch hcw c.nwx _ i, ih g i]
    by_cases hrow : i < c.width * c.height ∧ i % c.width / c.chunk_height < c.nwx ∧
        i / c.width / c.chunk_width = ny
    · rw [if_pos hrow]
      obtain ⟨h1, h2, h3⟩ := hrow
      have hc : i < c.width * c.height ∧ i % c.width / c.chunk_height < c.nwx ∧
          i / c.width / c.chunk_width < ny + 1 := ⟨h1, h2, by omega⟩
      rw [if_pos hc]
    · rw [if_neg hrow]
      have hiff : (i < c.width * c.height ∧ i % c.width / c.chunk_height < c.nwx ∧
          i / c.width / c.chunk_width < ny + 1) ↔ (i < c.width * c.height ∧
          i % c.width / c.chunk_height < c.nwx ∧ i / c.width / c.chunk_width < ny) := by
        constructor
        · rintro ⟨h1, h2, h3⟩
          refine ⟨h1, h2, ?_⟩
          rcases Nat.lt_succ_iff_lt_or_eq.1 h3 with h | h
          · exact h
          · exact absurd ⟨h1, h2, h⟩ hrow
        · rintro ⟨h1, h2, h3⟩
          exact ⟨h1, h2, by omega⟩
      exact (if_congr hiff rfl rfl).symm

lemma runKernel_result_char (c : Config) (p : Nat → Nat) (g : GpuState)
    (hch : 0 < c.chunk_height) (hcw : 0 < c.chunk_width) (i : Nat) :
    (runKernel c p g).resultArrayList i
      = if i < c.width * c.height ∧ i % c.width / c.chunk_height < c.nwx ∧
          i / c.width / c.chunk_width < c.nwy
        then resolved c p i else g.resultArrayList i := by
  unfold runKernel
  exact kernel_fold_result c p hch hcw c.nwy g i

lemma row_fold_counter (c : Config) (p : Nat → Nat) (wy : Nat) :
    ∀ (nx : Nat) (g : GpuState),
      ((List.range nx).foldl (fun g2 wx => runTile c p wx wy g2) g).belowMinLength
        = g.belowMinLength
          + c.chunk_size * ∑ wx ∈ Finset.range nx, (missingList c p wx wy).length := by
  intro nx
  induction nx with
  | zero => intro g; simp
  | succ nx ih =>
    intro g
    rw [List.range_succ, List.foldl_append]
    simp only [List.foldl_cons, List.foldl_nil]
    rw [runTile_counter, ih g, Finset.sum_range_succ, Nat.mul_add]
    ring

lemma kernel_fold_counter (c : Config) (p : Nat → Nat) :
    ∀ (ny : Nat) (g : GpuState),
      ((List.range ny).foldl (fun g1 wy => (List.range c.nwx).foldl
          (fun g2 wx => runTile c p wx wy g2) g1) g).belowMinLength
        = g.belowMinLength + c.chunk_size * ∑ wy ∈ Finset.range ny,
            ∑ wx ∈ Finset.range c.nwx, (missingList c p wx wy).length := by
  intro ny
  induction ny with
  | zero => intro g; simp
  | succ ny ih =>
    intro g
    rw [List.range_succ, List.foldl_append]
    simp only [List.foldl_cons, List.foldl_nil]
    rw [row_fold_counter, ih g, Finset.sum_range_succ, Nat.mul_add]
    ring

lemma row_fold_debug (c : Config) (p : Nat → Nat) (wy : Nat) :
    ∀ (nx : Nat) (g : GpuState) (j : Nat),
      ((List.range nx).foldl (fun g2 wx => runTile c p wx wy g2) g).debugData j
        = if c.debug = 1 ∧ 0 < c.chunk_size ∧ j < nx
          then (missingList c p j wy).length else g.debugData j := by
  intro nx
  induction nx with
  | zero => intro g j; simp
  | succ nx ih =>
    intro g j
    rw [List.range_succ, List.foldl_append]
    simp only [List.foldl_cons, List.foldl_nil]
    rw [runTile_debug]
    by_cases hd : c.debug = 1 ∧ 0 < c.chunk_size
    · rw [if_pos hd]
      by_cases hj : j = nx
      · subst hj
        simp [store, ih g j, hd.1, hd.2]
      · have hj' : ¬(j = nx) := hj
        simp only [store]
        rw [if_neg hj', ih g j]
        by_cases hlt : j < nx
        · have hc1 : c.debug = 1 ∧ 0 < c.chunk_size ∧ j < nx := ⟨hd.1, hd.2, hlt⟩
          have hc2 : c.debug = 1 ∧ 0 < c.chunk_size ∧ j < nx + 1 := ⟨hd.1, hd.2, by omega⟩
          rw [if_pos hc1, if_pos hc2]
        · have hc1 : ¬(c.debug = 1 ∧ 0 < c.chunk_size ∧ j < nx) := by
            rintro ⟨_, _, h⟩; exact hlt h
          have hc2 : ¬(c.debug = 1 ∧ 0 < c.chunk_size ∧ j < nx + 1) := by
            rintro ⟨_, _, h⟩; exact hj (by omega)
          rw [if_neg hc1, if_neg hc2]
    · rw [if_neg hd, ih g j]
      have hiff : (c.debug = 1 ∧ 0 < c.chunk_size ∧ j < nx)
          ↔ (c.debug = 1 ∧ 0 < c.chunk_size ∧ j < nx + 1) := by
        constructor
        · rintro ⟨ha, hb, _⟩; exact absurd ⟨ha, hb⟩ hd
        · rintro ⟨ha, hb, _⟩; exact absurd ⟨ha, hb⟩ hd
      rw [if_congr hiff rfl rfl]

lemma kernel_fold_debug_off (c : Config) (p : Nat → Nat) (hd : c.debug ≠ 1) :
    ∀ (ny : Nat) (g : GpuState),
      ((List.range ny).foldl (fun g1 wy => (List.range c.nwx).foldl
          (fun g2 wx => runTile c p wx wy g2) g1) g).debugData = g.debugData := by
  have hrow : ∀ (wy nx : Nat) (g : GpuState),
      ((List.range nx).foldl (fun g2 wx => runTile c p wx wy g2) g).debugData
        = g.debugData := by
    intro wy nx g
    funext j
    have hnc : ¬(c.debug = 1 ∧ 0 < c.chunk_size ∧ j < nx) := by
      rintro ⟨h, _, _⟩; exact hd h
    rw [row_fold_debug c p wy nx g j, if_neg hnc]
  intro ny
  induction ny with
  | zero => intro g; rfl
  | succ ny ih =>
    intro g
    rw [List.range_succ, List.foldl_append]
    simp only [List.foldl_cons, List.foldl_nil]
    rw [hrow, ih g]

/-! ### Counting: tile missing counts sum to the total sentinel count -/

lemma posOf_inj (c : Config) (wx wy l₁ l₂ : Nat)
    (h : posOf c wx wy l₁ = posOf c wx wy l₂) : l₁ = l₂ := by
  simp only [posOf, Prod.mk.injEq] at h
  obtain ⟨h1, h2⟩ := h
  have e1 : l₁ % c.chunk_height = l₂ % c.chunk_height := by omega
  have e2 : l₁ / c.chunk_height = l₂ / c.chunk_height := by omega
  have d1 := Nat.div_add_mod l₁ c.chunk_height
  have d2 := Nat.div_add_mod l₂ c.chunk_height
  rw [e1, e2] at d1
  omega

lemma card_filter_range (n : Nat) (P : Nat → Prop) [DecidablePred P] :
    ((Finset.range n).filter P).card
      = ((List.range n).filter (fun l => decide (P l))).length := rfl

lemma length_filterMap_missAt (c : Config) (p : Nat → Nat) (wx wy : Nat) :
    ∀ L : List Nat,
      (L.filterMap (missAt c p wx wy)).length
        = (L.filter (fun l => decide ((posOf c wx wy l).1 < c.width ∧
            (posOf c wx wy l).2 < c.height ∧
            p (idxOf c (posOf c wx wy l)) = 0))).length := by
  intro L
  induction L with
  | nil => rfl
  | cons a L ih =>
    by_cases hc : (posOf c wx wy a).1 < c.width ∧ (posOf c wx wy a).2 < c.height ∧
        p (idxOf c (posOf c wx wy a)) = 0
    · simp [List.filterMap_cons, List.filter_cons, missAt, hc, ih]
    · simp [List.filterMap_cons, List.filter_cons, missAt, hc, ih]

lemma missingList_length_eq_fiber (c : Config) (p : Nat → Nat) (wx wy : Nat)
    (hch : 0 < c.chunk_height) (hcw : 0 < c.chunk_width) :
    (missingList c p wx wy).length
      = (((Finset.range (c.width * c.height)).filter (fun i => p i = 0)).filter
          (fun i => (i % c.width / c.chunk_height, i / c.width / c.chunk_width)
            = (wx, wy))).card := by
  have h1 : (missingList c p wx wy).length = ((Finset.range c.chunk_size).filter
      (fun l => (posOf c wx wy l).1 < c.width ∧ (posOf c wx wy l).2 < c.height ∧
        p (idxOf c (posOf c wx wy l)) = 0)).card := by
    rw [missingList, length_filterMap_missAt, ← card_filter_range]
  rw [h1]
  refine Finset.card_bij (fun l _ => idxOf c (posOf c wx wy l)) ?_ ?_ ?_
  · intro l hl
    obtain ⟨hlr, hP⟩ := Finset.mem_filter.1 hl
    obtain ⟨hb1, hb2, hp0⟩ := hP
    have hcov : coveredBy c wx wy (idxOf c (posOf c wx wy l)) :=
      (covered_iff c hch hcw wx wy _).2
        ⟨l, List.mem_range.2 (Finset.mem_range.1 hlr), hb1, hb2, rfl⟩
    obtain ⟨hwlt, hxeq, hyeq⟩ := hcov
    refine Finset.mem_filter.2 ⟨Finset.mem_filter.2 ⟨Finset.mem_range.2 hwlt, hp0⟩, ?_⟩
    rw [hxeq, hyeq]
  · intro l₁ h₁ l₂ h₂ heq
    obtain ⟨_, hb11, _, _⟩ := Finset.mem_filter.1 h₁
    obtain ⟨_, hb21, _, _⟩ := Finset.mem_filter.1 h₂
    have hm1 : idxOf c (posOf c wx wy l₁) % c.width = (posOf c wx wy l₁).1 :=
      tile_mod_eq _ _ _ hb11
    have hm2 : idxOf c (posOf c wx wy l₂) % c.width = (posOf c wx wy l₂).1 :=
      tile_mod_eq _ _ _ hb21
    have hd1 : idxOf c (posOf c wx wy l₁) / c.width = (posOf c wx wy l₁).2 :=
      tile_div_eq _ _ _ hb11
    have hd2 : idxOf c (posOf c wx wy l₂) / c.width = (posOf c wx wy l₂).2 :=
      tile_div_eq _ _ _ hb21
    dsimp only at heq
    refine posOf_inj c wx wy l₁ l₂ ?_
    have hx : (posOf c wx wy l₁).1 = (posOf c wx wy l₂).1 := by
      rw [← hm1, ← hm2, heq]
    have hy : (posOf c wx wy l₁).2 = (posOf c wx wy l₂).2 := by
      rw [← hd1, ← hd2, heq]
    exact Prod.ext hx hy
  · intro i hi
    obtain ⟨hiS, hpair⟩ := Finset.mem_filter.1 hi
    obtain ⟨hrange, hp0⟩ := Finset.mem_filter.1 hiS
    rw [Prod.mk.injEq] at hpair
    have hcov : coveredBy c wx wy i := ⟨Finset.mem_range.1 hrange, hpair.1, hpair.2⟩
    rcases (covered_iff c hch hcw wx wy i).1 hcov with ⟨l, hl, hb1, hb2, hidx⟩
    refine ⟨l, Finset.mem_filter.2 ⟨Finset.mem_range.2 (List.mem_range.1 hl),
      hb1, hb2, ?_⟩, hidx⟩
    rw [hidx]
    exact hp0

lemma sum_tiles_eq_totalMissing (c : Config) (p : Nat → Nat)
    (hch : 0 < c.chunk_height) (hcw : 0 < c.chunk_width) (hcov : covers c) :
    ∑ wy ∈ Finset.range c.nwy, ∑ wx ∈ Finset.range c.nwx,
      (missingList c p wx wy).length = totalMissing c p := by
  have hmap : ∀ i ∈ (Finset.range (c.width * c.height)).filter (fun i => p i = 0),
      (i % c.width / c.chunk_height, i / c.width / c.chunk_width)
        ∈ Finset.range c.nwx ×ˢ Finset.range c.nwy := by
    intro i hi
    obtain ⟨hrange, _⟩ := Finset.mem_filter.1 hi
    have hiwh := Finset.mem_range.1 hrange
    have hw : 0 < c.width := by
      rcases Nat.eq_zero_or_pos c.width with h | h
      · rw [h, Nat.zero_mul] at hiwh; omega
      · exact h
    have hx : i % c.width / c.chunk_height < c.nwx := by
      refine (Nat.div_lt_iff_lt_mul hch).2 ?_
      have hmlt := Nat.mod_lt i hw
      have hcov1 := hcov.1
      omega
    have hy : i / c.width / c.chunk_width < c.nwy := by
      refine (Nat.div_lt_iff_lt_mul hcw).2 ?_
      have hdiv : i / c.width < c.height := by
        refine (Nat.div_lt_iff_lt_mul hw).2 ?_
        rw [Nat.mul_comm]
        exact hiwh
      have := hcov.2
      omega
    exact Finset.mem_product.2 ⟨Finset.mem_range.2 hx, Finset.mem_range.2 hy⟩
  have hfib := Finset.card_eq_sum_card_fiberwise hmap
  rw [Finset.sum_product] at hfib
  have hterm : ∀ wy ∈ Finset.range c.nwy, ∑ wx ∈ Finset.range c.nwx,
      (missingList c p wx wy).length = ∑ wx ∈ Finset.range c.nwx,
        (((Finset.range (c.width * c.height)).filter (fun i => p i = 0)).filter
          (fun i => (i % c.width / c.chunk_height, i / c.width / c.chunk_width)
            = (wx, wy))).card := by
    intro wy _
    refine Finset.sum_congr rfl ?_
    intro wx _
    exact missingList_length_eq_fiber c p wx wy hch hcw
  rw [Finset.sum_congr rfl hterm, Finset.sum_comm]
  rw [← hfib]
  rfl

/-! ### Top-level helper lemmas -/

lemma grid_cond_of_lt (c : Config) (i : Nat) (hch : 0 < c.chunk_height)
    (hcw : 0 < c.chunk_width) (hcov : covers c) (hi : i < c.width * c.height) :
    i % c.width / c.chunk_height < c.nwx ∧ i / c.width / c.chunk_width < c.nwy := by
  have hw : 0 < c.width := by
    rcases Nat.eq_zero_or_pos c.width with h | h
    · rw [h, Nat.zero_mul] at hi; omega
    · exact h
  constructor
  · refine (Nat.div_lt_iff_lt_mul hch).2 ?_
    have hmlt := Nat.mod_lt i hw
    have hcov1 := hcov.1
    omega
  · refine (Nat.div_lt_iff_lt_mul hcw).2 ?_
    have hdiv : i / c.width < c.height := by
      refine (Nat.div_lt_iff_lt_mul hw).2 ?_
      rw [Nat.mul_comm]
      exact hi
    have hcov2 := hcov.2
    omega

lemma runKernel_counter_eq (c : Config) (p : Nat → Nat) (g : GpuState)
    (hch : 0 < c.chunk_height) (hcw : 0 < c.chunk_width) (hcov : covers c) :
    (runKernel c p g).belowMinLength
      = g.belowMinLength + c.chunk_size * totalMissing c p := by
  unfold runKernel
  rw [kernel_fold_counter, sum_tiles_eq_totalMissing c p hch hcw hcov]

lemma kernel_result_nonzero (c : Config) (p : Nat → Nat) (g : GpuState)
    (hch : 0 < c.chunk_height) (hcw : 0 < c.chunk_width) (hcov : covers c) :
    ∀ i, i < c.width * c.height → (runKernel c p g).resultArrayList i ≠ 0 := by
  intro i hi
  obtain ⟨hx, hy⟩ := grid_cond_of_lt c i hch hcw hcov hi
  rw [runKernel_result_char c p g hch hcw i, if_pos ⟨hi, hx, hy⟩]
  unfold resolved
  by_cases hp : p i = 0
  · rw [if_pos hp]
    refine tileMax_ne c p _ _ ?_
    simp only [Config.chunk_size]
    exact Nat.mul_pos hcw hch
  · rw [if_neg hp]
    exact hp

lemma missAt_some (c : Config) (p : Nat → Nat) (wx wy l : Nat) (v : Nat × Nat × Nat)
    (h : missAt c p wx wy l = some v) :
    v = ((posOf c wx wy l).1, (posOf c wx wy l).2, 0) := by
  simp only [missAt] at h
  split_ifs at h
  cases h
  rfl

lemma missingList_nodup (c : Config) (p : Nat → Nat) (wx wy : Nat) :
    (missingList c p wx wy).Nodup := by
  refine List.Nodup.filterMap ?_ (List.nodup_range _)
  intro a a' v hva hva'
  have e1 := missAt_some c p wx wy a v (Option.mem_def.1 hva)
  have e2 := missAt_some c p wx wy a' v (Option.mem_def.1 hva')
  rw [e1] at e2
  simp only [Prod.mk.injEq] at e2
  exact posOf_inj c wx wy a a' (Prod.ext e2.1 e2.2.1)

/-! ### Claims -/

/-- C1, counterexample: on Scenario A (input `[5, 0, 3, 0]`, one 2×2 tile)
the input has exactly 2 sentinel pixels but the global counter ends at 8,
because every one of the tile's `chunk_size = 4` threads executes the final
`atomicAdd`, not a single representative. -/
theorem C1_counterexample :
    totalMissing cfgA pixA = 2 ∧ cfgA.chunk_size = 4 ∧
    (runKernel cfgA pixA gpu0).belowMinLength = 8 ∧
    (runKernel cfgA pixA gpu0).belowMinLength ≠ totalMissing cfgA pixA := by decide

/-- C1, amended: the `atomicAdd(&belowMinMatrix.length, current_vector_length)`
is executed by every thread of every workgroup (it is not guarded to a single
representative), so for a dispatch covering the image the final value of the
global counter is `chunk_size` times the exact number of sentinel-valued
pixels in the input buffer, not that number itself. -/
theorem C1_theorem (c : Config) (p : Nat → Nat) (g : GpuState)
    (hch : 0 < c.chunk_height) (hcw : 0 < c.chunk_width) (hcov : covers c) :
    (runKernel c p g).belowMinLength
      = g.belowMinLength + c.chunk_size * totalMissing c p :=
  runKernel_counter_eq c p g hch hcw hcov

/-- C1, witness for the amended theorem at Scenario A. -/
theorem C1_witness :
    0 < cfgA.chunk_height ∧ 0 < cfgA.chunk_width ∧ covers cfgA ∧
    (runKernel cfgA pixA gpu0).belowMinLength
      = gpu0.belowMinLength + cfgA.chunk_size * totalMissing cfgA pixA :=
  ⟨by decide, by decide, by decide,
    C1_theorem cfgA pixA gpu0 (by decide) (by decide) (by decide)⟩

/-- C2, counterexample: in Scenario A neither zero is replaced by 5 or 3, and
the global counter is not 2. -/
theorem C2_counterexample :
    (runKernel cfgA pixA gpu0).resultArrayList 1 ≠ 5 ∧
    (runKernel cfgA pixA gpu0).resultArrayList 1 ≠ 3 ∧
    (runKernel cfgA pixA gpu0).resultArrayList 3 ≠ 5 ∧
    (runKernel cfgA pixA gpu0).resultArrayList 3 ≠ 3 ∧
    (runKernel cfgA pixA gpu0).belowMinLength ≠ 2 := by decide

/-- C2, amended: in Scenario A the pixels 5 and 3 both have `srgbLuminance`
equal to 0 (their payload sits in the low byte, which `colorVector` ignores),
so neither exceeds the luminance of the `local_max` seed `RGBA(1,0,0,0)`;
both zeros are therefore replaced by the seed color `0x01000000`, the
non-missing pixels are copied verbatim, the tile's own missing count
(`vectors_length`) is 2, and the global counter ends at 8 (every one of the
4 threads adds the tile count 2). -/
theorem C2_theorem :
    (runKernel cfgA pixA gpu0).resultArrayList 0 = 5 ∧
    (runKernel cfgA pixA gpu0).resultArrayList 1 = RGBA 1 0 0 0 ∧
    (runKernel cfgA pixA gpu0).resultArrayList 2 = 3 ∧
    (runKernel cfgA pixA gpu0).resultArrayList 3 = RGBA 1 0 0 0 ∧
    (missingList cfgA pixA 0 0).length = 2 ∧
    (runKernel cfgA pixA gpu0).belowMinLength = 8 ∧
    srgbLuminance 5 = 0 ∧ srgbLuminance 3 = 0 ∧ 0 < srgbLuminance (RGBA 1 0 0 0) := by
  refine ⟨by decide, by decide, by decide, by decide, by decide, by decide, ?_, ?_, ?_⟩
  · have h : srgbLuminanceNum 5 = 0 := by decide
    rw [srgbLuminance_eq, h]
    norm_num
  · have h : srgbLuminanceNum 3 = 0 := by decide
    rw [srgbLuminance_eq, h]
    norm_num
  · have h : srgbLuminanceNum (RGBA 1 0 0 0) = 2126 := by decide
    rw [srgbLuminance_eq, h]
    norm_num

/-- C3: for any dispatch covering the image, after the kernel runs every
sentinel-valued pixel holds its enclosing tile's final `local_max` and every
non-zero pixel is copied verbatim. -/
theorem C3_theorem (c : Config) (p : Nat → Nat) (g : GpuState)
    (hch : 0 < c.chunk_height) (hcw : 0 < c.chunk_width) (hcov : covers c) :
    ∀ gx, gx < c.width → ∀ gy, gy < c.height →
      ((p (gy * c.width + gx) = 0 →
        (runKernel c p g).resultArrayList (gy * c.width + gx)
          = tileMax c p (gx / c.chunk_height) (gy / c.chunk_width)) ∧
      (p (gy * c.width + gx) ≠ 0 →
        (runKernel c p g).resultArrayList (gy * c.width + gx)
          = p (gy * c.width + gx))) := by
  intro gx hgx gy hgy
  have hi : gy * c.width + gx < c.width * c.height := idx_lt_size _ _ _ _ hgx hgy
  have hmod : (gy * c.width + gx) % c.width = gx := tile_mod_eq _ _ _ hgx
  have hdiv : (gy * c.width + gx) / c.width = gy := tile_div_eq _ _ _ hgx
  have hx : gx / c.chunk_height < c.nwx := by
    refine (Nat.div_lt_iff_lt_mul hch).2 ?_
    have := hcov.1
    omega
  have hy : gy / c.chunk_width < c.nwy := by
    refine (Nat.div_lt_iff_lt_mul hcw).2 ?_
    have := hcov.2
    omega
  have hchar := runKernel_result_char c p g hch hcw (gy * c.width + gx)
  rw [hmod, hdiv] at hchar
  rw [if_pos ⟨hi, hx, hy⟩] at hchar
  constructor
  · intro hp
    rw [hchar]
    unfold resolved
    rw [hmod, hdiv, if_pos hp]
  · intro hp
    rw [hchar]
    unfold resolved
    rw [hmod, hdiv, if_neg hp]

/-- C3, witness at Scenario A, pixel `(1, 0)` (the first zero). -/
theorem C3_witness :
    0 < cfgA.chunk_height ∧ 0 < cfgA.chunk_width ∧ covers cfgA ∧
    1 < cfgA.width ∧ 0 < cfgA.height ∧ pixA (0 * cfgA.width + 1) = 0 ∧
    (runKernel cfgA pixA gpu0).resultArrayList (0 * cfgA.width + 1)
      = tileMax cfgA pixA (1 / cfgA.chunk_height) (0 / cfgA.chunk_width) :=
  ⟨by decide, by decide, by decide, by decide, by decide, by decide,
    (C3_theorem cfgA pixA gpu0 (by decide) (by decide) (by decide) 1 (by decide) 0
      (by decide)).1 (by decide)⟩

/-- C4, counterexample: with a 1×1 image and a 2×2 tile, thread 3 sits at
the out-of-bounds position `(1, 1)`, yet its post-barrier code still adds the
tile's missing count to the global counter and writes the debug buffer: the
claim that such a thread performs no buffer writes at all is false. -/
theorem C4_counterexample :
    ¬((posOf cfgOut 0 0 3).1 < cfgOut.width ∧ (posOf cfgOut 0 0 3).2 < cfgOut.height) ∧
    (postBarrierThread cfgOut 0
        (phase1Tile cfgOut pixZero 0 0 gpu0.resultArrayList).vectors
        (phase1Tile cfgOut pixZero 0 0 gpu0.resultArrayList).local_max 3
        gpu0).belowMinLength ≠ gpu0.belowMinLength ∧
    (postBarrierThread cfgOut 0
        (phase1Tile cfgOut pixZero 0 0 gpu0.resultArrayList).vectors
        (phase1Tile cfgOut pixZero 0 0 gpu0.resultArrayList).local_max 3
        gpu0).debugData 0 ≠ gpu0.debugData 0 := by decide

/-- C4, amended: the bounds check `all(position < size)` guards only phase 1
(an out-of-bounds thread appends nothing to the missing list and writes
nothing to the result buffer there), but after the barrier every thread —
in or out of bounds — unconditionally adds `current_vector_length` to the
global counter (and, when debug is set, writes the debug buffer). -/
theorem C4_theorem (c : Config) (p : Nat → Nat) (wx wy l : Nat) (st : TileState)
    (vecs : List (Nat × Nat × Nat)) (lm : Nat) (g : GpuState)
    (hout : ¬((posOf c wx wy l).1 < c.width ∧ (posOf c wx wy l).2 < c.height)) :
    (phase1Thread c p wx wy l st).vectors = st.vectors ∧
    (phase1Thread c p wx wy l st).result = st.result ∧
    (postBarrierThread c wx vecs lm l g).belowMinLength
      = g.belowMinLength + vecs.length := by
  refine ⟨?_, ?_, rfl⟩
  · rw [phase1Thread_vectors]
    have hnone : missAt c p wx wy l = none := by
      have hnc : ¬((posOf c wx wy l).1 < c.width ∧ (posOf c wx wy l).2 < c.height ∧
          p (idxOf c (posOf c wx wy l)) = 0) := fun h => hout ⟨h.1, h.2.1⟩
      simp [missAt, hnc]
    rw [hnone]
    simp
  · funext i
    rw [phase1Thread_result]
    have hnc : ¬((posOf c wx wy l).1 < c.width ∧ (posOf c wx wy l).2 < c.height ∧
        idxOf c (posOf c wx wy l) = i) := fun h => hout ⟨h.1, h.2.1⟩
    rw [if_neg hnc]

/-- C4, witness for the amended theorem: thread 3 of `cfgOut`. -/
theorem C4_witness :
    ¬((posOf cfgOut 0 0 3).1 < cfgOut.width ∧ (posOf cfgOut 0 0 3).2 < cfgOut.height) ∧
    ((phase1Thread cfgOut pixZero 0 0 3 ⟨[], 0, 0, fun _ => 0⟩).vectors
        = (⟨[], 0, 0, fun _ => 0⟩ : TileState).vectors ∧
      (phase1Thread cfgOut pixZero 0 0 3 ⟨[], 0, 0, fun _ => 0⟩).result
        = (⟨[], 0, 0, fun _ => 0⟩ : TileState).result ∧
      (postBarrierThread cfgOut 0 [] 0 3 gpu0).belowMinLength
        = gpu0.belowMinLength + ([] : List (Nat × Nat × Nat)).length) :=
  ⟨by decide,
    C4_theorem cfgOut pixZero 0 0 3 ⟨[], 0, 0, fun _ => 0⟩ [] 0 gpu0 (by decide)⟩

/-- C5: the packer `RGBA` places `{r, g, b, a}` at bit shifts
`{24, 16, 8, 0}`, while `colorVector` reads shifts `{24, 16, 8}` labelling
them `{r, b, g}` in that order, so the round trip yields the vector
`(r/255, b/255, g/255)` — `g` and `b` swapped relative to packing — and the
low byte `a` is ignored. -/
theorem C5_theorem (r g b a : Nat) (hr : r < 256) (hg : g < 256) (hb : b < 256)
    (ha : a < 256) :
    RGBA r g b a = r * 2 ^ 24 + g * 2 ^ 16 + b * 2 ^ 8 + a ∧
    colorVector (RGBA r g b a) = ((r : ℚ) / 255, (b : ℚ) / 255, (g : ℚ) / 255) :=
  ⟨RGBA_eq r g b a hr hg hb ha, colorVector_RGBA r g b a hr hg hb ha⟩

/-- C5, witness at `(r, g, b, a) = (10, 20, 30, 40)`. -/
theorem C5_witness :
    10 < 256 ∧ 20 < 256 ∧ 30 < 256 ∧ 40 < 256 ∧
    (RGBA 10 20 30 40 = 10 * 2 ^ 24 + 20 * 2 ^ 16 + 30 * 2 ^ 8 + 40 ∧
      colorVector (RGBA 10 20 30 40)
        = (((10 : Nat) : ℚ) / 255, ((30 : Nat) : ℚ) / 255, ((20 : Nat) : ℚ) / 255)) :=
  ⟨by decide, by decide, by decide, by decide,
    C5_theorem 10 20 30 40 (by decide) (by decide) (by decide) (by decide)⟩

/-- C6, counterexample: with a two-row workgroup grid (`cfgDbg`, debug on),
the tile at workgroup `(0, 1)` has linear workgroup index `1 * nwx + 0 = 1`
and one missing pixel, but the kernel writes debug entries at
`workgroup_id.x` only, so `debugData[1]` is never written and does not hold
that tile's count. -/
theorem C6_counterexample :
    cfgDbg.debug = 1 ∧ (missingList cfgDbg pixDbg 0 1).length = 1 ∧
    (runKernel cfgDbg pixDbg gpu0).debugData (1 * cfgDbg.nwx + 0) = 0 ∧
    (runKernel cfgDbg pixDbg gpu0).debugData (1 * cfgDbg.nwx + 0)
      ≠ (missingList cfgDbg pixDbg 0 1).length := by decide

/-- C6, amended: the debug buffer is written iff `params.debug == 1` (when
the flag is anything else the buffer is left untouched); when it is set,
every thread of a tile writes the tile's missing count to index
`workgroup_id.x` — the tile's column, not its linear workgroup index — so
tiles in different grid rows of the same column overwrite one another; for a
single-row dispatch (`nwy = 1`) the entry at each tile's index does hold
exactly that tile's missing-pixel count. -/
theorem C6_theorem (c : Config) (p : Nat → Nat) (g : GpuState) :
    (c.debug ≠ 1 → (runKernel c p g).debugData = g.debugData) ∧
    (c.debug = 1 → c.nwy = 1 → 0 < c.chunk_size →
      ∀ wx, wx < c.nwx →
        (runKernel c p g).debugData wx = (missingList c p wx 0).length) := by
  constructor
  · intro hd
    unfold runKernel
    exact kernel_fold_debug_off c p hd c.nwy g
  · intro hd h1 hcs wx hwx
    unfold runKernel
    rw [h1, show List.range 1 = [0] from rfl]
    simp only [List.foldl_cons, List.foldl_nil]
    have hc : c.debug = 1 ∧ 0 < c.chunk_size ∧ wx < c.nwx := ⟨hd, hcs, hwx⟩
    rw [row_fold_debug c p 0 c.nwx g wx, if_pos hc]

/-- C6, witness: debug-off leaves the buffer untouched (`cfgA`), and a
single-row debug-on dispatch records the tile count (`cfgOut`). -/
theorem C6_witness :
    cfgA.debug ≠ 1 ∧ (runKernel cfgA pixA gpu0).debugData = gpu0.debugData ∧
    cfgOut.debug = 1 ∧ cfgOut.nwy = 1 ∧ 0 < cfgOut.chunk_size ∧ 0 < cfgOut.nwx ∧
    (runKernel cfgOut pixZero gpu0).debugData 0
      = (missingList cfgOut pixZero 0 0).length :=
  ⟨by decide, (C6_theorem cfgA pixA gpu0).1 (by decide), by decide, by decide,
    by decide, by decide,
    (C6_theorem cfgOut pixZero gpu0).2 (by decide) (by decide) (by decide) 0 (by decide)⟩

/-- C7: running the kernel a second time on the result buffer produced by a
covering first run is a no-op on the buffer (the first run's output has no
sentinel pixels), and the second run contributes zero to the global
missing-pixel counter. -/
theorem C7_theorem (c : Config) (p : Nat → Nat) (ga gb : GpuState)
    (hch : 0 < c.chunk_height) (hcw : 0 < c.chunk_width) (hcov : covers c) :
    (∀ i, i < c.width * c.height →
      (runKernel c (runKernel c p ga).resultArrayList gb).resultArrayList i
        = (runKernel c p ga).resultArrayList i) ∧
    (runKernel c (runKernel c p ga).resultArrayList gb).belowMinLength
      = gb.belowMinLength := by
  have hnz := kernel_result_nonzero c p ga hch hcw hcov
  constructor
  · intro i hi
    obtain ⟨hx, hy⟩ := grid_cond_of_lt c i hch hcw hcov hi
    rw [runKernel_result_char c _ gb hch hcw i]
    have hc : i < c.width * c.height ∧ i % c.width / c.chunk_height < c.nwx ∧
        i / c.width / c.chunk_width < c.nwy := ⟨hi, hx, hy⟩
    rw [if_pos hc]
    unfold resolved
    rw [if_neg (hnz i hi)]
  · rw [runKernel_counter_eq c _ gb hch hcw hcov]
    have h0 : totalMissing c (runKernel c p ga).resultArrayList = 0 := by
      unfold totalMissing
      rw [Finset.card_eq_zero, Finset.filter_eq_empty_iff]
      intro i hir
      exact hnz i (Finset.mem_range.1 hir)
    rw [h0, Nat.mul_zero, Nat.add_zero]

/-- C7, witness at Scenario A. -/
theorem C7_witness :
    0 < cfgA.chunk_height ∧ 0 < cfgA.chunk_width ∧ covers cfgA ∧
    1 < cfgA.width * cfgA.height ∧
    (runKernel cfgA (runKernel cfgA pixA gpu0).resultArrayList gpu0).resultArrayList 1
      = (runKernel cfgA pixA gpu0).resultArrayList 1 ∧
    (runKernel cfgA (runKernel cfgA pixA gpu0).resultArrayList gpu0).belowMinLength
      = gpu0.belowMinLength :=
  ⟨by decide, by decide, by decide, by decide,
    (C7_theorem cfgA pixA gpu0 gpu0 (by decide) (by decide) (by decide)).1 1 (by decide),
    (C7_theorem cfgA pixA gpu0 gpu0 (by decide) (by decide) (by decide)).2⟩

/-- C8: two-run noninterference across tiles — if two input buffers agree on
every in-bounds pixel of a given tile, the two runs' result buffers agree on
every index of that tile, whatever the buffers hold in other tiles. -/
theorem C8_theorem (c : Config) (p q : Nat → Nat) (g : GpuState) (wx wy : Nat)
    (hch : 0 < c.chunk_height) (hcw : 0 < c.chunk_width)
    (hagree : ∀ i, i < c.width * c.height → coveredBy c wx wy i → p i = q i) :
    ∀ i, coveredBy c wx wy i →
      (runKernel c p g).resultArrayList i = (runKernel c q g).resultArrayList i := by
  intro i hcov
  obtain ⟨hi, hx, hy⟩ := hcov
  rw [runKernel_result_char c p g hch hcw i, runKernel_result_char c q g hch hcw i,
    hx, hy]
  by_cases hgrid : i < c.width * c.height ∧ wx < c.nwx ∧ wy < c.nwy
  · rw [if_pos hgrid, if_pos hgrid]
    unfold resolved
    rw [hx, hy]
    have hpi : p i = q i := hagree i hi ⟨hi, hx, hy⟩
    rw [hpi]
    by_cases hq : q i = 0
    · rw [if_pos hq, if_pos hq]
      refine tileMax_congr c p q wx wy ?_
      intro l hl hb
      have hcv : coveredBy c wx wy (idxOf c (posOf c wx wy l)) :=
        (covered_iff c hch hcw wx wy _).2 ⟨l, List.mem_range.2 hl, hb.1, hb.2, rfl⟩
      exact hagree _ hcv.1 hcv
    · rw [if_neg hq, if_neg hq]
  · rw [if_neg hgrid, if_neg hgrid]

/-- C8, witness: `pixDbg` and `pixDbg2` differ only in the second tile of
`cfgDbg`; the first tile's output index 1 agrees across the two runs. -/
theorem C8_witness :
    0 < cfgDbg.chunk_height ∧ 0 < cfgDbg.chunk_width ∧
    (∀ i, i < cfgDbg.width * cfgDbg.height → coveredBy cfgDbg 0 0 i →
      pixDbg i = pixDbg2 i) ∧
    coveredBy cfgDbg 0 0 1 ∧
    (runKernel cfgDbg pixDbg gpu0).resultArrayList 1
      = (runKernel cfgDbg pixDbg2 gpu0).resultArrayList 1 :=
  ⟨by decide, by decide, by decide, by decide,
    C8_theorem cfgDbg pixDbg pixDbg2 gpu0 0 0 (by decide) (by decide) (by decide)
      1 (by decide)⟩

/-- C9: for a covering dispatch every in-bounds entry of the result buffer is
non-zero after the kernel runs — non-missing pixels are non-zero and copied
verbatim, and missing pixels are filled with the tile's `local_max`, which is
either an observed non-zero pixel or the non-zero seed `RGBA(1,0,0,0)`. -/
theorem C9_theorem (c : Config) (p : Nat → Nat) (g : GpuState)
    (hch : 0 < c.chunk_height) (hcw : 0 < c.chunk_width) (hcov : covers c) :
    ∀ i, i < c.width * c.height → (runKernel c p g).resultArrayList i ≠ 0 :=
  kernel_result_nonzero c p g hch hcw hcov

/-- C9, witness at Scenario A, index 1. -/
theorem C9_witness :
    0 < cfgA.chunk_height ∧ 0 < cfgA.chunk_width ∧ covers cfgA ∧
    1 < cfgA.width * cfgA.height ∧
    (runKernel cfgA pixA gpu0).resultArrayList 1 ≠ 0 :=
  ⟨by decide, by decide, by decide, by decide,
    C9_theorem cfgA pixA gpu0 (by decide) (by decide) (by decide) 1 (by decide)⟩

/-- C10: per tile, at most one missing-list append happens per in-bounds
position (the recorded entries are pairwise distinct and their number never
exceeds `chunk_size`, so every atomically-claimed slot is in range), each
recorded entry is claimed by exactly one thread of the phase-2 strided loop
(stride `chunk_size` from each local index), and the loop never touches
entries at or beyond `vectors_length`. -/
theorem C10_theorem (c : Config) (p : Nat → Nat) (wx wy : Nat) :
    (missingList c p wx wy).length ≤ c.chunk_size ∧
    (missingList c p wx wy).Nodup ∧
    (∀ i, i < (missingList c p wx wy).length →
      ∃! l, l < c.chunk_size ∧ ∃ k, i = l + k * c.chunk_size) ∧
    (∀ lm res l, (missingList c p wx wy).length ≤ l →
      phase2Loop c (missingList c p wx wy) lm l res = res) := by
  have hlen := missingList_length_le c p wx wy
  refine ⟨hlen, missingList_nodup c p wx wy, ?_, ?_⟩
  · intro i hi
    refine ⟨i, ⟨by omega, 0, by omega⟩, ?_⟩
    rintro l ⟨hl, k, hk⟩
    rcases Nat.eq_zero_or_pos k with h0 | h0
    · subst h0
      omega
    · have hge : c.chunk_size ≤ k * c.chunk_size := Nat.le_mul_of_pos_left _ h0
      omega
  · intro lm res l hl
    exact phase2Loop_ge c _ lm l res hl

/-- C10, witness at Scenario A's tile. -/
theorem C10_witness :
    (missingList cfgA pixA 0 0).length ≤ cfgA.chunk_size ∧
    (missingList cfgA pixA 0 0).Nodup ∧
    0 < (missingList cfgA pixA 0 0).length ∧
    (∃! l, l < cfgA.chunk_size ∧ ∃ k, 0 = l + k * cfgA.chunk_size) ∧
    (missingList cfgA pixA 0 0).length ≤ 4 ∧
    phase2Loop cfgA (missingList cfgA pixA 0 0) 7 4 pixA = pixA :=
  ⟨(C10_theorem cfgA pixA 0 0).1, (C10_theorem cfgA pixA 0 0).2.1, by decide,
    (C10_theorem cfgA pixA 0 0).2.2.1 0 (by decide), by decide,
    (C10_theorem cfgA pixA 0 0).2.2.2 7 pixA 4 (by decide)⟩

end Heatmap
